import Mathlib

/-!
Shallow embedding of `src/agents/cli-runner/stream-json-parser.ts`.

Strings are modelled as `List Char`.  `JSON.parse` is an external platform
facility, so the embedding is parameterised by an arbitrary decoding function
`parse : List Char → Option JValue`; every theorem quantifies over it.  The
observer callbacks are modelled by an output trace of `OutEvent`s: each
recognised notification appends one event, in source order.
-/

namespace StreamJson

/-- ASCII whitespace stripped by JavaScript's `String.prototype.trim`. -/
def isJsWhitespace (c : Char) : Bool :=
  c = ' ' || c = '\t' || c = '\n' || c = '\r' || c = '\x0b' || c = '\x0c'

/-- `line.trim()` on a character-list string: strip whitespace at both ends. -/
def trimChars (s : List Char) : List Char :=
  ((s.dropWhile isJsWhitespace).reverse.dropWhile isJsWhitespace).reverse

/-- `buffer.split("\n")`: split on every newline, keeping empty pieces; the
result is never empty (splitting the empty string gives one empty piece). -/
def splitOnNl : List Char → List (List Char)
  | [] => [[]]
  | c :: cs =>
    if c = '\n' then [] :: splitOnNl cs
    else
      match splitOnNl cs with
      | [] => [[c]]
      | p :: ps => (c :: p) :: ps

/-- `lines.pop() ?? ""`: the last piece, or the empty string. -/
def lastGetD : List (List Char) → List Char
  | [] => []
  | [x] => x
  | _ :: x :: xs => lastGetD (x :: xs)

/-- A decoded JSON value (the possible results of `JSON.parse`). -/
inductive JValue where
  | null : JValue
  | bool (b : Bool) : JValue
  | num (n : Int) : JValue
  | str (s : List Char) : JValue
  | arr (xs : List JValue) : JValue
  | obj (fields : List (String × JValue)) : JValue

/-- `isRecord`: a non-null, non-array object. -/
def JValue.isRecord : JValue → Bool
  | .obj _ => true
  | _ => false

/-- JavaScript truthiness of a decoded value. -/
def JValue.jsTruthy : JValue → Bool
  | .null => false
  | .bool b => b
  | .num n => n ≠ 0
  | .str s => s ≠ []
  | .arr _ => true
  | .obj _ => true

/-- Property access `raw[key]`: `none` plays the role of `undefined`. -/
def getField : List (String × JValue) → String → Option JValue
  | [], _ => none
  | (k, v) :: fs, key => if k = key then some v else getField fs key

/-- Narrow an optional value to an object's field list (`isRecord` check). -/
def asRecord : Option JValue → Option (List (String × JValue))
  | some (.obj fs) => some fs
  | _ => none

/-- Strict equality `v === "lit"` of an optional value with a string literal. -/
def strEq : Option JValue → List Char → Bool
  | some (.str s), t => s = t
  | _, _ => false

/-- Strict equality `v === true` of an optional value with the boolean `true`. -/
def isTrueVal : Option JValue → Bool
  | some (.bool true) => true
  | _ => false

/-- The `CliUsage` record: five independent optional counters. -/
structure CliUsage where
  input : Option Int := none
  output : Option Int := none
  cacheRead : Option Int := none
  cacheWrite : Option Int := none
  total : Option Int := none
deriving DecidableEq

/-- `pick`: the value at `key` when it is a number strictly greater than 0. -/
def pick (raw : List (String × JValue)) (key : String) : Option Int :=
  match getField raw key with
  | some (.num n) => if 0 < n then some n else none
  | _ => none

/-- `toUsage`: resolve the five counters through their alternate spellings
(`??` chains) and return `none` when all five are absent. -/
def toUsage (raw : List (String × JValue)) : Option CliUsage :=
  let input := pick raw "input_tokens" <|> pick raw "inputTokens"
  let output := pick raw "output_tokens" <|> pick raw "outputTokens"
  let cacheRead :=
    pick raw "cache_read_input_tokens" <|> pick raw "cached_input_tokens" <|> pick raw "cacheRead"
  let cacheWrite := pick raw "cache_write_input_tokens" <|> pick raw "cacheWrite"
  let total := pick raw "total_tokens" <|> pick raw "total"
  if input = none ∧ output = none ∧ cacheRead = none ∧ cacheWrite = none ∧ total = none then
    none
  else
    some ⟨input, output, cacheRead, cacheWrite, total⟩

/-- One observer notification (`onText`, `onToolUse`, `onSessionId`,
`onUsage`, `onError`), with its argument. -/
inductive OutEvent where
  | text (s : List Char) : OutEvent
  | toolUse (s : List Char) : OutEvent
  | sessionIdEv (s : List Char) : OutEvent
  | usageEv (u : CliUsage) : OutEvent
  | errorEv (s : List Char) : OutEvent
deriving DecidableEq

def OutEvent.isText : OutEvent → Bool
  | .text _ => true
  | _ => false

def OutEvent.isSession : OutEvent → Bool
  | .sessionIdEv _ => true
  | _ => false

def OutEvent.isUsage : OutEvent → Bool
  | .usageEv _ => true
  | _ => false

def OutEvent.isErr : OutEvent → Bool
  | .errorEv _ => true
  | _ => false

def textEvs (evs : List OutEvent) : List OutEvent := evs.filter OutEvent.isText

def sessionEvs (evs : List OutEvent) : List OutEvent := evs.filter OutEvent.isSession

def usageEvs (evs : List OutEvent) : List OutEvent := evs.filter OutEvent.isUsage

def errorEvs (evs : List OutEvent) : List OutEvent := evs.filter OutEvent.isErr

/-- The accumulator variables captured by the parser closure, minus the line
buffer (`collectedTextParts`, `sessionId`, `usage`). -/
structure AccState where
  collectedTextParts : List (List Char) := []
  sessionId : Option (List Char) := none
  usage : Option CliUsage := none
deriving DecidableEq

/-- The whole mutable state of one parser instance: the pending line buffer
plus the accumulator. -/
structure ParserState where
  buffer : List Char := []
  acc : AccState := {}
deriving DecidableEq

def initState : ParserState := {}

/-- JavaScript falsiness of `sessionId` (`!sessionId`): `undefined` or `""`. -/
def jsFalsyOptStr : Option (List Char) → Bool
  | none => true
  | some s => s.isEmpty

/-- `const type = typeof parsed.type === "string" ? parsed.type : ""`. -/
def typeField (fields : List (String × JValue)) : List Char :=
  match getField fields "type" with
  | some (.str t) => t
  | _ => []

/-- Body of the `content_block_delta` branch, given the narrowed `delta`
record: `delta.type === "text_delta" && typeof delta.text === "string"`. -/
def deltaInner (st : AccState) (delta : List (String × JValue)) :
    AccState × List OutEvent :=
  if strEq (getField delta "type") "text_delta".toList then
    match getField delta "text" with
    | some (.str t) =>
      ({ st with collectedTextParts := st.collectedTextParts ++ [t] }, [OutEvent.text t])
    | _ => (st, [])
  else (st, [])

/-- The `content_block_delta` branch; applies (returns `some`) exactly when
the guard `type === "content_block_delta" && isRecord(parsed.delta)` holds. -/
def deltaCase (st : AccState) (fields : List (String × JValue)) :
    Option (AccState × List OutEvent) :=
  if typeField fields = "content_block_delta".toList then
    (asRecord (getField fields "delta")).map (deltaInner st)
  else none

/-- Body of the `content_block_start` branch, given the narrowed
`content_block` record. -/
def startInner (st : AccState) (block : List (String × JValue)) :
    AccState × List OutEvent :=
  if strEq (getField block "type") "tool_use".toList then
    match getField block "name" with
    | some (.str n) => (st, [OutEvent.toolUse n])
    | _ => (st, [])
  else (st, [])

/-- The `content_block_start` branch; guard
`type === "content_block_start" && isRecord(parsed.content_block)`. -/
def startCase (st : AccState) (fields : List (String × JValue)) :
    Option (AccState × List OutEvent) :=
  if typeField fields = "content_block_start".toList then
    (asRecord (getField fields "content_block")).map (startInner st)
  else none

/-- Capture of a non-empty trimmed `session_id` field: the body shared
verbatim by the `system` branch and result sub-step 1 in the source. -/
def sessionInner (st : AccState) (fields : List (String × JValue)) :
    AccState × List OutEvent :=
  match getField fields "session_id" with
  | some (.str s) =>
    if trimChars s ≠ [] then
      ({ st with sessionId := some (trimChars s) }, [OutEvent.sessionIdEv (trimChars s)])
    else (st, [])
  | _ => (st, [])

/-- The `system` branch; guard `type === "system" && !sessionId`. -/
def systemCase (st : AccState) (fields : List (String × JValue)) :
    Option (AccState × List OutEvent) :=
  if typeField fields = "system".toList ∧ jsFalsyOptStr st.sessionId then
    some (sessionInner st fields)
  else none

/-- Result sub-step 1: capture `session_id` when still unset. -/
def resultSession (st : AccState) (fields : List (String × JValue)) :
    AccState × List OutEvent :=
  if jsFalsyOptStr st.sessionId then sessionInner st fields else (st, [])

/-- Result sub-step 2: `usage = toUsage(parsed.usage) ?? usage; if (usage)
onUsage(usage)`. -/
def resultUsage (st : AccState) (fields : List (String × JValue)) :
    AccState × List OutEvent :=
  match asRecord (getField fields "usage") with
  | some raw =>
    match toUsage raw <|> st.usage with
    | some u => ({ st with usage := some u }, [OutEvent.usageEv u])
    | none => ({ st with usage := none }, [])
  | none => (st, [])

/-- Result sub-step 3: fallback text when no delta was ever collected. -/
def resultFallback (st : AccState) (fields : List (String × JValue)) :
    AccState × List OutEvent :=
  if st.collectedTextParts = [] then
    match getField fields "result" with
    | some (.str r) =>
      if trimChars r ≠ [] then
        ({ st with collectedTextParts := st.collectedTextParts ++ [r] }, [OutEvent.text r])
      else (st, [])
    | _ => (st, [])
  else (st, [])

/-- Result sub-step 4: `parsed.is_error === true && typeof parsed.result ===
"string"` fires the error observer. -/
def resultError (fields : List (String × JValue)) : List OutEvent :=
  if isTrueVal (getField fields "is_error") then
    match getField fields "result" with
    | some (.str r) => [OutEvent.errorEv r]
    | _ => []
  else []

/-- Body of the `result` branch: the four sub-steps in source order. -/
def resultBody (st : AccState) (fields : List (String × JValue)) :
    AccState × List OutEvent :=
  let r1 := resultSession st fields
  let r2 := resultUsage r1.1 fields
  let r3 := resultFallback r2.1 fields
  (r3.1, r1.2 ++ r2.2 ++ r3.2 ++ resultError fields)

/-- The `result` branch. -/
def resultCase (st : AccState) (fields : List (String × JValue)) :
    Option (AccState × List OutEvent) :=
  if typeField fields = "result".toList then some (resultBody st fields) else none

/-- Dispatch a decoded object to the first applicable branch (each `if` in the
source returns when its guard matches; otherwise control falls through). -/
def dispatch (st : AccState) (fields : List (String × JValue)) :
    AccState × List OutEvent :=
  match deltaCase st fields with
  | some r => r
  | none =>
    match startCase st fields with
    | some r => r
    | none =>
      match systemCase st fields with
      | some r => r
      | none =>
        match resultCase st fields with
        | some r => r
        | none => (st, [])

/-- `processLine`: trim, discard blanks, decode, discard non-objects,
dispatch. -/
def processLine (parse : List Char → Option JValue) (st : AccState)
    (line : List Char) : AccState × List OutEvent :=
  if trimChars line = [] then (st, [])
  else
    match parse (trimChars line) with
    | some (.obj fields) => dispatch st fields
    | _ => (st, [])

/-- Process a list of completed lines in order, concatenating the traces. -/
def processLines (parse : List Char → Option JValue) (st : AccState) :
    List (List Char) → AccState × List OutEvent
  | [] => (st, [])
  | l :: ls =>
    let r1 := processLine parse st l
    let r2 := processLines parse r1.1 ls
    (r2.1, r1.2 ++ r2.2)

/-- `feed(chunk)`: append to the buffer, split on newlines, keep the last
piece as the new buffer, process the completed lines in order. -/
def feed (parse : List Char → Option JValue) (st : ParserState)
    (chunk : List Char) : ParserState × List OutEvent :=
  let pieces := splitOnNl (st.buffer ++ chunk)
  let r := processLines parse st.acc pieces.dropLast
  (⟨lastGetD pieces, r.1⟩, r.2)

/-- `flush()`: if the buffer trims to non-empty, process it as one final line
and clear the buffer; otherwise do nothing (the buffer is left as-is). -/
def flush (parse : List Char → Option JValue) (st : ParserState) :
    ParserState × List OutEvent :=
  if trimChars st.buffer ≠ [] then
    let r := processLine parse st.acc st.buffer
    (⟨[], r.1⟩, r.2)
  else (st, [])

/-- Feed a list of fragments in order, concatenating the traces. -/
def feedMany (parse : List Char → Option JValue) (st : ParserState) :
    List (List Char) → ParserState × List OutEvent
  | [] => (st, [])
  | c :: cs =>
    let r1 := feed parse st c
    let r2 := feedMany parse r1.1 cs
    (r2.1, r1.2 ++ r2.2)

/-- `getCollectedText()`: `collectedTextParts.join("")`. -/
def getCollectedText (st : ParserState) : List Char := st.acc.collectedTextParts.flatten

/-- `getSessionId()`. -/
def getSessionId (st : ParserState) : Option (List Char) := st.acc.sessionId

/-- `getUsage()`. -/
def getUsage (st : ParserState) : Option CliUsage := st.acc.usage

/-! ### A first-match-wins restatement of `dispatch`

`dispatch` follows the source's sequence of early-returning `if` blocks;
`stepSpec` is the same behaviour written as a single `if`/`else if` chain on
the discriminant, which is easier to reason about.  `dispatch_eq_stepSpec`
proves the two agree; the fall-through cases (a matching discriminant whose
nested record check fails) are no-ops either way. -/

def stepSpec (st : AccState) (fields : List (String × JValue)) :
    AccState × List OutEvent :=
  if typeField fields = "content_block_delta".toList then
    match asRecord (getField fields "delta") with
    | some delta => deltaInner st delta
    | none => (st, [])
  else if typeField fields = "content_block_start".toList then
    match asRecord (getField fields "content_block") with
    | some block => startInner st block
    | none => (st, [])
  else if typeField fields = "system".toList then
    if jsFalsyOptStr st.sessionId then sessionInner st fields else (st, [])
  else if typeField fields = "result".toList then
    resultBody st fields
  else (st, [])

theorem dispatch_eq_stepSpec (st : AccState) (fields : List (String × JValue)) :
    dispatch st fields = stepSpec st fields := by
  by_cases h1 : typeField fields = "content_block_delta".toList
  · have h2 : typeField fields ≠ "content_block_start".toList := by rw [h1]; decide
    have h3 : ¬(typeField fields = "system".toList ∧ jsFalsyOptStr st.sessionId) := by
      rintro ⟨hc, -⟩; rw [h1] at hc; exact absurd hc (by decide)
    have h4 : typeField fields ≠ "result".toList := by rw [h1]; decide
    unfold dispatch stepSpec deltaCase startCase systemCase resultCase
    rw [if_pos h1, if_pos h1, if_neg h2, if_neg h3, if_neg h4]
    cases asRecord (getField fields "delta") <;> simp
  · by_cases h2 : typeField fields = "content_block_start".toList
    · have h3 : ¬(typeField fields = "system".toList ∧ jsFalsyOptStr st.sessionId) := by
        rintro ⟨hc, -⟩; rw [h2] at hc; exact absurd hc (by decide)
      have h4 : typeField fields ≠ "result".toList := by rw [h2]; decide
      unfold dispatch stepSpec deltaCase startCase systemCase resultCase
      rw [if_neg h1, if_neg h1, if_pos h2, if_pos h2, if_neg h3, if_neg h4]
      cases asRecord (getField fields "content_block") <;> simp
    · by_cases h3 : typeField fields = "system".toList
      · have h4 : typeField fields ≠ "result".toList := by rw [h3]; decide
        unfold dispatch stepSpec deltaCase startCase systemCase resultCase
        rw [if_neg h1, if_neg h1, if_neg h2, if_neg h2, if_pos h3, if_neg h4]
        by_cases h5 : jsFalsyOptStr st.sessionId
        · rw [if_pos (And.intro h3 h5), if_pos h5]
        · rw [if_neg (fun hc => absurd hc.2 h5), if_neg h5]
      · by_cases h4 : typeField fields = "result".toList
        · unfold dispatch stepSpec deltaCase startCase systemCase resultCase
          rw [if_neg h1, if_neg h1, if_neg h2, if_neg h2,
            if_neg (fun hc => absurd hc.1 h3), if_neg h3, if_pos h4, if_pos h4]
        · unfold dispatch stepSpec deltaCase startCase systemCase resultCase
          rw [if_neg h1, if_neg h1, if_neg h2, if_neg h2,
            if_neg (fun hc => absurd hc.1 h3), if_neg h3, if_neg h4, if_neg h4]

/-! ### Per-field observables of a single decoded event

Each definition reads one concern off a decoded object: the session-id a line
can establish, the usage object it carries, the text it can push, the error
signal, the tool-use signal.  `stepModel` assembles them into a closed-form
description of one dispatch step, proved equal to `stepSpec` (and hence to
`dispatch`) in `step_model`. -/

/-- The non-empty trimmed `session_id` string carried by an event, if any. -/
def sessionIdField (fields : List (String × JValue)) : Option (List Char) :=
  match getField fields "session_id" with
  | some (.str s) => if trimChars s ≠ [] then some (trimChars s) else none
  | _ => none

/-- The session id an event can establish: only `system` and `result` events
are consulted. -/
def sessionFieldOf (fields : List (String × JValue)) : Option (List Char) :=
  if typeField fields = "system".toList ∨ typeField fields = "result".toList then
    sessionIdField fields
  else none

/-- The string payload of a text delta record, if recognised. -/
def deltaTextOf (delta : List (String × JValue)) : Option (List Char) :=
  if strEq (getField delta "type") "text_delta".toList then
    match getField delta "text" with
    | some (.str t) => some t
    | _ => none
  else none

/-- The recognised text-delta payload of an event, if any. -/
def deltaPayloadOf (fields : List (String × JValue)) : Option (List Char) :=
  if typeField fields = "content_block_delta".toList then
    match asRecord (getField fields "delta") with
    | some delta => deltaTextOf delta
    | none => none
  else none

/-- The string `result` field of a `result` event, if any. -/
def resultTextOf (fields : List (String × JValue)) : Option (List Char) :=
  if typeField fields = "result".toList then
    match getField fields "result" with
    | some (.str r) => some r
    | _ => none
  else none

/-- The usage object carried by a `result` event, if any. -/
def usageRawOf (fields : List (String × JValue)) :
    Option (List (String × JValue)) :=
  if typeField fields = "result".toList then asRecord (getField fields "usage")
  else none

/-- The fragments an event appends to `collectedTextParts`, given the parts
collected so far: a recognised delta payload always, the `result` fallback
only when nothing was collected and the trimmed field is non-empty. -/
def textPushF (parts : List (List Char)) (fields : List (String × JValue)) :
    List (List Char) :=
  match deltaPayloadOf fields with
  | some t => [t]
  | none =>
    match resultTextOf fields with
    | some r => if parts = [] ∧ trimChars r ≠ [] then [r] else []
    | none => []

/-- The error-observer notifications of an event: a `result` event whose
`is_error` is strictly `true` and whose `result` field is a string. -/
def errorSigOf (fields : List (String × JValue)) : List OutEvent :=
  if typeField fields = "result".toList ∧ isTrueVal (getField fields "is_error") then
    match getField fields "result" with
    | some (.str r) => [OutEvent.errorEv r]
    | _ => []
  else []

/-- The tool-use notifications within a `content_block_start` branch body. -/
def toolSigInner (block : List (String × JValue)) : List OutEvent :=
  if strEq (getField block "type") "tool_use".toList then
    match getField block "name" with
    | some (.str n) => [OutEvent.toolUse n]
    | _ => []
  else []

/-- The tool-use notifications of an event. -/
def toolSigOf (fields : List (String × JValue)) : List OutEvent :=
  if typeField fields = "content_block_start".toList then
    match asRecord (getField fields "content_block") with
    | some block => toolSigInner block
    | none => []
  else []

theorem deltaInner_spec (st : AccState) (delta : List (String × JValue)) :
    deltaInner st delta =
      (match deltaTextOf delta with
      | some t =>
        ({ st with collectedTextParts := st.collectedTextParts ++ [t] }, [OutEvent.text t])
      | none => (st, [])) := by
  unfold deltaInner deltaTextOf
  split_ifs with h
  · cases hg : getField delta "text" with
    | none => simp
    | some v => cases v <;> simp
  · rfl

theorem sessionInner_spec (st : AccState) (fields : List (String × JValue)) :
    sessionInner st fields =
      (match sessionIdField fields with
      | some s => ({ st with sessionId := some s }, [OutEvent.sessionIdEv s])
      | none => (st, [])) := by
  unfold sessionInner sessionIdField
  cases hg : getField fields "session_id" with
  | none => simp
  | some v =>
    cases v <;> simp
    split_ifs <;> simp

theorem startInner_spec (st : AccState) (block : List (String × JValue)) :
    startInner st block = (st, toolSigInner block) := by
  unfold startInner toolSigInner
  split_ifs with h
  · cases hg : getField block "name" with
    | none => simp
    | some v => cases v <;> simp
  · rfl

/-- Closed-form description of handling one decoded object: how each stored
field changes and which notifications fire, in source order. -/
def stepModel (st : AccState) (fields : List (String × JValue)) :
    AccState × List OutEvent :=
  let sess := if jsFalsyOptStr st.sessionId then sessionFieldOf fields else none
  let newUsage :=
    match usageRawOf fields with
    | some raw => toUsage raw <|> st.usage
    | none => st.usage
  let push := textPushF st.collectedTextParts fields
  ({ collectedTextParts := st.collectedTextParts ++ push,
     sessionId := match sess with | some s => some s | none => st.sessionId,
     usage := newUsage },
    (sess.map OutEvent.sessionIdEv).toList ++
      (match usageRawOf fields with
      | some _ => (newUsage.map OutEvent.usageEv).toList
      | none => []) ++
      push.map OutEvent.text ++ errorSigOf fields ++ toolSigOf fields)

theorem step_model (st : AccState) (fields : List (String × JValue)) :
    stepSpec st fields = stepModel st fields := by
  obtain ⟨parts, sid, usg⟩ := st
  by_cases h1 : typeField fields = "content_block_delta".toList
  · have hsf : sessionFieldOf fields = none := by
      unfold sessionFieldOf; rw [if_neg]
      rintro (hc | hc) <;> (rw [h1] at hc; exact absurd hc (by decide))
    have hur : usageRawOf fields = none := by
      unfold usageRawOf; rw [if_neg]; intro hc; rw [h1] at hc; exact absurd hc (by decide)
    have hrt : resultTextOf fields = none := by
      unfold resultTextOf; rw [if_neg]; intro hc; rw [h1] at hc; exact absurd hc (by decide)
    have hes : errorSigOf fields = [] := by
      unfold errorSigOf; rw [if_neg]
      rintro ⟨hc, -⟩; rw [h1] at hc; exact absurd hc (by decide)
    have hts : toolSigOf fields = [] := by
      unfold toolSigOf; rw [if_neg]; intro hc; rw [h1] at hc; exact absurd hc (by decide)
    have hdp : deltaPayloadOf fields =
        (match asRecord (getField fields "delta") with
        | some delta => deltaTextOf delta
        | none => none) := by
      unfold deltaPayloadOf; rw [if_pos h1]
    unfold stepSpec stepModel textPushF
    rw [if_pos h1, hsf, hur, hrt, hes, hts, hdp]
    cases hr : asRecord (getField fields "delta") with
    | none => simp
    | some delta =>
      cases ht : deltaTextOf delta <;> simp [deltaInner_spec, ht]
  · by_cases h2 : typeField fields = "content_block_start".toList
    · have hsf : sessionFieldOf fields = none := by
        unfold sessionFieldOf; rw [if_neg]
        rintro (hc | hc) <;> (rw [h2] at hc; exact absurd hc (by decide))
      have hur : usageRawOf fields = none := by
        unfold usageRawOf; rw [if_neg]; intro hc; rw [h2] at hc; exact absurd hc (by decide)
      have hrt : resultTextOf fields = none := by
        unfold resultTextOf; rw [if_neg]; intro hc; rw [h2] at hc; exact absurd hc (by decide)
      have hdp : deltaPayloadOf fields = none := by
        unfold deltaPayloadOf; rw [if_neg h1]
      have hes : errorSigOf fields = [] := by
        unfold errorSigOf; rw [if_neg]
        rintro ⟨hc, -⟩; rw [h2] at hc; exact absurd hc (by decide)
      have hts : toolSigOf fields =
          (match asRecord (getField fields "content_block") with
          | some block => toolSigInner block
          | none => []) := by
        unfold toolSigOf; rw [if_pos h2]
      unfold stepSpec stepModel textPushF
      rw [if_neg h1, if_pos h2, hsf, hur, hrt, hes, hts, hdp]
      cases hr : asRecord (getField fields "content_block") with
      | none => simp
      | some block => simp [startInner_spec]
    · by_cases h3 : typeField fields = "system".toList
      · have hsf : sessionFieldOf fields = sessionIdField fields := by
          unfold sessionFieldOf; rw [if_pos (Or.inl h3)]
        have hur : usageRawOf fields = none := by
          unfold usageRawOf; rw [if_neg]; intro hc; rw [h3] at hc; exact absurd hc (by decide)
        have hrt : resultTextOf fields = none := by
          unfold resultTextOf; rw [if_neg]; intro hc; rw [h3] at hc; exact absurd hc (by decide)
        have hdp : deltaPayloadOf fields = none := by
          unfold deltaPayloadOf; rw [if_neg h1]
        have hes : errorSigOf fields = [] := by
          unfold errorSigOf; rw [if_neg]
          rintro ⟨hc, -⟩; rw [h3] at hc; exact absurd hc (by decide)
        have hts : toolSigOf fields = [] := by
          unfold toolSigOf; rw [if_neg h2]
        unfold stepSpec stepModel textPushF
        rw [if_neg h1, if_neg h2, if_pos h3, hsf, hur, hrt, hes, hts, hdp]
        cases hf : jsFalsyOptStr sid with
        | false => simp [hf]
        | true => cases hs : sessionIdField fields <;> simp [sessionInner_spec, hf, hs]
      · by_cases h4 : typeField fields = "result".toList
        · have hsf : sessionFieldOf fields = sessionIdField fields := by
            unfold sessionFieldOf; rw [if_pos (Or.inr h4)]
          have hur : usageRawOf fields = asRecord (getField fields "usage") := by
            unfold usageRawOf; rw [if_pos h4]
          have hrt : resultTextOf fields =
              (match getField fields "result" with
              | some (.str r) => some r
              | _ => none) := by
            unfold resultTextOf; rw [if_pos h4]
          have hdp : deltaPayloadOf fields = none := by
            unfold deltaPayloadOf; rw [if_neg h1]
          have hes : errorSigOf fields = resultError fields := by
            unfold errorSigOf resultError
            by_cases hie : isTrueVal (getField fields "is_error")
            · rw [if_pos (And.intro h4 hie), if_pos hie]
            · rw [if_neg (fun hc => absurd hc.2 hie), if_neg hie]
          have hts : toolSigOf fields = [] := by
            unfold toolSigOf; rw [if_neg h2]
          unfold stepSpec stepModel textPushF
          rw [if_neg h1, if_neg h2, if_neg h3, if_pos h4, hsf, hur, hrt, hes, hts, hdp]
          unfold resultBody resultSession resultUsage resultFallback
          cases hf : jsFalsyOptStr sid with
          | false =>
            cases hu : asRecord (getField fields "usage") with
            | none =>
              cases hgr : getField fields "result" with
              | none => simp [hf, hu, hgr]
              | some v =>
                cases v <;> simp [hf, hu, hgr] <;> split_ifs <;> simp_all
            | some raw =>
              cases hn : toUsage raw <|> usg <;>
                (cases hgr : getField fields "result" with
                | none => simp [hf, hu, hn, hgr]
                | some v =>
                  cases v <;> simp [hf, hu, hn, hgr] <;> split_ifs <;> simp_all)
          | true =>
            cases hs : sessionIdField fields with
            | none =>
              cases hu : asRecord (getField fields "usage") with
              | none =>
                cases hgr : getField fields "result" with
                | none => simp [sessionInner_spec, hf, hs, hu, hgr]
                | some v =>
                  cases v <;> simp [sessionInner_spec, hf, hs, hu, hgr] <;>
                    split_ifs <;> simp_all
              | some raw =>
                cases hn : toUsage raw <|> usg <;>
                  (cases hgr : getField fields "result" with
                  | none => simp [sessionInner_spec, hf, hs, hu, hn, hgr]
                  | some v =>
                    cases v <;> simp [sessionInner_spec, hf, hs, hu, hn, hgr] <;>
                      split_ifs <;> simp_all)
            | some s =>
              cases hu : asRecord (getField fields "usage") with
              | none =>
                cases hgr : getField fields "result" with
                | none => simp [sessionInner_spec, hf, hs, hu, hgr]
                | some v =>
                  cases v <;> simp [sessionInner_spec, hf, hs, hu, hgr] <;>
                    split_ifs <;> simp_all
              | some raw =>
                cases hn : toUsage raw <|> usg <;>
                  (cases hgr : getField fields "result" with
                  | none => simp [sessionInner_spec, hf, hs, hu, hn, hgr]
                  | some v =>
                    cases v <;> simp [sessionInner_spec, hf, hs, hu, hn, hgr] <;>
                      split_ifs <;> simp_all)
        · have hsf : sessionFieldOf fields = none := by
            unfold sessionFieldOf; rw [if_neg]; rintro (hc | hc) <;> [exact h3 hc; exact h4 hc]
          have hur : usageRawOf fields = none := by unfold usageRawOf; rw [if_neg h4]
          have hrt : resultTextOf fields = none := by unfold resultTextOf; rw [if_neg h4]
          have hdp : deltaPayloadOf fields = none := by unfold deltaPayloadOf; rw [if_neg h1]
          have hes : errorSigOf fields = [] := by
            unfold errorSigOf; rw [if_neg (fun hc => absurd hc.1 h4)]
          have hts : toolSigOf fields = [] := by unfold toolSigOf; rw [if_neg h2]
          unfold stepSpec stepModel textPushF
          rw [if_neg h1, if_neg h2, if_neg h3, if_neg h4, hsf, hur, hrt, hes, hts, hdp]
          simp

/-- Closed-form description of `processLine`: blank or undecodable or
non-object lines are no-ops, everything else follows `stepModel`. -/
def lineModel (parse : List Char → Option JValue) (st : AccState)
    (line : List Char) : AccState × List OutEvent :=
  if trimChars line = [] then (st, [])
  else
    match parse (trimChars line) with
    | some (.obj fields) => stepModel st fields
    | _ => (st, [])

theorem processLine_model (parse : List Char → Option JValue) (st : AccState)
    (line : List Char) : processLine parse st line = lineModel parse st line := by
  unfold processLine lineModel
  split_ifs with h
  · rfl
  · cases hp : parse (trimChars line) with
    | none => rfl
    | some v => cases v <;> simp [dispatch_eq_stepSpec, step_model]

/-! ### Line-splitting infrastructure for chunk-boundary invariance -/

theorem splitOnNl_ne_nil (xs : List Char) : splitOnNl xs ≠ [] := by
  induction xs with
  | nil => simp [splitOnNl]
  | cons c cs ih =>
    unfold splitOnNl
    split_ifs
    · simp
    · cases h : splitOnNl cs <;> simp

theorem no_nl_mem_splitOnNl (xs p : List Char) (hp : p ∈ splitOnNl xs) :
    '\n' ∉ p := by
  induction xs generalizing p with
  | nil =>
    simp only [splitOnNl, List.mem_singleton] at hp
    subst hp; simp
  | cons c cs ih =>
    unfold splitOnNl at hp
    by_cases hc : c = '\n'
    · rw [if_pos hc] at hp
      rcases List.mem_cons.mp hp with h | h
      · subst h; simp
      · exact ih p h
    · rw [if_neg hc] at hp
      cases hsp : splitOnNl cs with
      | nil => exact absurd hsp (splitOnNl_ne_nil cs)
      | cons q qs =>
        rw [hsp] at hp
        rcases List.mem_cons.mp hp with h | h
        · subst h
          intro hmem
          rcases List.mem_cons.mp hmem with h' | h'
          · exact hc h'.symm
          · exact ih q (by rw [hsp]; exact List.mem_cons_self q qs) h'
        · exact ih p (by rw [hsp]; exact List.mem_cons.mpr (Or.inr h))

theorem splitOnNl_no_nl (xs : List Char) (h : '\n' ∉ xs) : splitOnNl xs = [xs] := by
  induction xs with
  | nil => rfl
  | cons c cs ih =>
    have hc : ¬(c = '\n') := fun hcc => h (by rw [hcc]; exact List.mem_cons_self '\n' cs)
    have hcs : '\n' ∉ cs := fun hm => h (List.mem_cons.mpr (Or.inr hm))
    unfold splitOnNl
    rw [if_neg hc, ih hcs]

/-- Merge two split results across a removed concatenation point: the last
piece of the first and the first piece of the second were one line. -/
def glue : List (List Char) → List (List Char) → List (List Char)
  | [], ys => ys
  | [x], [] => [x]
  | [x], y :: ys => (x ++ y) :: ys
  | x :: x2 :: xs, ys => x :: glue (x2 :: xs) ys

theorem splitOnNl_cons_nl (cs : List Char) :
    splitOnNl ('\n' :: cs) = [] :: splitOnNl cs := by
  conv_lhs => unfold splitOnNl
  rw [if_pos rfl]

theorem splitOnNl_cons_ne (c : Char) (cs : List Char) (hc : ¬(c = '\n')) :
    splitOnNl (c :: cs) =
      (match splitOnNl cs with
      | [] => [[c]]
      | p :: ps => (c :: p) :: ps) := by
  conv_lhs => unfold splitOnNl
  rw [if_neg hc]

theorem splitOnNl_append (xs ys : List Char) :
    splitOnNl (xs ++ ys) = glue (splitOnNl xs) (splitOnNl ys) := by
  induction xs with
  | nil =>
    rw [List.nil_append, show splitOnNl ([] : List Char) = [[]] from rfl]
    cases h : splitOnNl ys with
    | nil => exact absurd h (splitOnNl_ne_nil ys)
    | cons z zs => simp [glue]
  | cons c cs ih =>
    by_cases hc : c = '\n'
    · subst hc
      rw [List.cons_append, splitOnNl_cons_nl, splitOnNl_cons_nl, ih]
      cases h : splitOnNl cs with
      | nil => exact absurd h (splitOnNl_ne_nil cs)
      | cons p ps => simp [glue]
    · rw [List.cons_append, splitOnNl_cons_ne c (cs ++ ys) hc,
        splitOnNl_cons_ne c cs hc, ih]
      cases h : splitOnNl cs with
      | nil => exact absurd h (splitOnNl_ne_nil cs)
      | cons p ps =>
        cases ps with
        | nil =>
          cases hz : splitOnNl ys with
          | nil => exact absurd hz (splitOnNl_ne_nil ys)
          | cons z zs => simp [glue]
        | cons p2 ps2 => simp [glue]

theorem lastGetD_mem (l : List (List Char)) (h : l ≠ []) : lastGetD l ∈ l := by
  induction l with
  | nil => exact absurd rfl h
  | cons a as ih =>
    cases as with
    | nil => simp [lastGetD]
    | cons b bs =>
      rw [show lastGetD (a :: b :: bs) = lastGetD (b :: bs) from rfl]
      exact List.mem_cons.mpr (Or.inr (ih (by simp)))

theorem lastGetD_append (A B : List (List Char)) (hB : B ≠ []) :
    lastGetD (A ++ B) = lastGetD B := by
  induction A with
  | nil => rfl
  | cons a as ih =>
    have h1 : lastGetD (a :: (as ++ B)) = lastGetD (as ++ B) := by
      cases hA : as ++ B with
      | nil => exact absurd (List.append_eq_nil.mp hA).2 hB
      | cons y ys => rfl
    rw [List.cons_append, h1, ih]

theorem dropLast_append_ne (A B : List (List Char)) (hB : B ≠ []) :
    (A ++ B).dropLast = A ++ B.dropLast := by
  induction A with
  | nil => rfl
  | cons a as ih =>
    have h1 : (a :: (as ++ B)).dropLast = a :: (as ++ B).dropLast := by
      cases hA : as ++ B with
      | nil => exact absurd (List.append_eq_nil.mp hA).2 hB
      | cons y ys => rfl
    rw [List.cons_append, h1, ih, List.cons_append]

theorem glue_decomp (P Z : List (List Char)) (h : P ≠ []) :
    glue P Z = P.dropLast ++ glue [lastGetD P] Z := by
  induction P with
  | nil => exact absurd rfl h
  | cons x xs ih =>
    cases xs with
    | nil => simp [glue, lastGetD]
    | cons x2 xs2 =>
      rw [show glue (x :: x2 :: xs2) Z = x :: glue (x2 :: xs2) Z from rfl,
        ih (by simp),
        show lastGetD (x :: x2 :: xs2) = lastGetD (x2 :: xs2) from rfl,
        show (x :: x2 :: xs2).dropLast = x :: (x2 :: xs2).dropLast from rfl,
        List.cons_append]

theorem processLines_append (parse : List Char → Option JValue) (st : AccState)
    (as bs : List (List Char)) :
    processLines parse st (as ++ bs) =
      ((processLines parse (processLines parse st as).1 bs).1,
        (processLines parse st as).2 ++
          (processLines parse (processLines parse st as).1 bs).2) := by
  induction as generalizing st with
  | nil => simp [processLines]
  | cons l ls ih =>
    simp only [List.cons_append, processLines, List.append_eq]
    rw [ih]
    simp [List.append_assoc]

theorem feed_append (parse : List Char → Option JValue) (st : ParserState)
    (a b : List Char) :
    feed parse st (a ++ b) =
      ((feed parse (feed parse st a).1 b).1,
        (feed parse st a).2 ++ (feed parse (feed parse st a).1 b).2) := by
  obtain ⟨buf, acc⟩ := st
  have hP : splitOnNl (buf ++ a) ≠ [] := splitOnNl_ne_nil (buf ++ a)
  have hL : '\n' ∉ lastGetD (splitOnNl (buf ++ a)) :=
    no_nl_mem_splitOnNl _ _ (lastGetD_mem _ hP)
  have hQ : splitOnNl (lastGetD (splitOnNl (buf ++ a)) ++ b) ≠ [] :=
    splitOnNl_ne_nil _
  have key : splitOnNl (buf ++ (a ++ b)) =
      (splitOnNl (buf ++ a)).dropLast ++
        splitOnNl (lastGetD (splitOnNl (buf ++ a)) ++ b) := by
    rw [← List.append_assoc, splitOnNl_append (buf ++ a) b,
      glue_decomp _ _ hP, splitOnNl_append (lastGetD (splitOnNl (buf ++ a))) b,
      splitOnNl_no_nl _ hL]
  simp only [feed]
  rw [key, lastGetD_append _ _ hQ, dropLast_append_ne _ _ hQ,
    processLines_append]

theorem feedMany_flatten (parse : List Char → Option JValue) (st : ParserState)
    (cs : List (List Char)) (h : '\n' ∉ st.buffer) :
    feedMany parse st cs = feed parse st cs.flatten := by
  induction cs generalizing st with
  | nil =>
    obtain ⟨buf, acc⟩ := st
    simp only [feedMany, List.flatten_nil, feed, List.append_nil]
    rw [splitOnNl_no_nl buf h]
    simp [lastGetD, processLines]
  | cons c cs ih =>
    have h1 : '\n' ∉ (feed parse st c).1.buffer := by
      simp only [feed]
      exact no_nl_mem_splitOnNl _ _ (lastGetD_mem _ (splitOnNl_ne_nil _))
    simp only [feedMany, List.flatten_cons]
    rw [ih _ h1, feed_append]

/-! ### Distribution of the observer filters over the trace segments -/

theorem sessionEvs_append (a b : List OutEvent) :
    sessionEvs (a ++ b) = sessionEvs a ++ sessionEvs b := List.filter_append _ _

theorem usageEvs_append (a b : List OutEvent) :
    usageEvs (a ++ b) = usageEvs a ++ usageEvs b := List.filter_append _ _

theorem textEvs_append (a b : List OutEvent) :
    textEvs (a ++ b) = textEvs a ++ textEvs b := List.filter_append _ _

theorem errorEvs_append (a b : List OutEvent) :
    errorEvs (a ++ b) = errorEvs a ++ errorEvs b := List.filter_append _ _

theorem sessionEvs_sessSeg (o : Option (List Char)) :
    sessionEvs ((o.map OutEvent.sessionIdEv).toList) =
      (o.map OutEvent.sessionIdEv).toList := by
  cases o <;> simp [sessionEvs, OutEvent.isSession]

theorem usageEvs_sessSeg (o : Option (List Char)) :
    usageEvs ((o.map OutEvent.sessionIdEv).toList) = [] := by
  cases o <;> simp [usageEvs, OutEvent.isUsage]

theorem textEvs_sessSeg (o : Option (List Char)) :
    textEvs ((o.map OutEvent.sessionIdEv).toList) = [] := by
  cases o <;> simp [textEvs, OutEvent.isText]

theorem errorEvs_sessSeg (o : Option (List Char)) :
    errorEvs ((o.map OutEvent.sessionIdEv).toList) = [] := by
  cases o <;> simp [errorEvs, OutEvent.isErr]

theorem sessionEvs_usageSeg (o : Option CliUsage) :
    sessionEvs ((o.map OutEvent.usageEv).toList) = [] := by
  cases o <;> simp [sessionEvs, OutEvent.isSession]

theorem usageEvs_usageSeg (o : Option CliUsage) :
    usageEvs ((o.map OutEvent.usageEv).toList) =
      (o.map OutEvent.usageEv).toList := by
  cases o <;> simp [usageEvs, OutEvent.isUsage]

theorem textEvs_usageSeg (o : Option CliUsage) :
    textEvs ((o.map OutEvent.usageEv).toList) = [] := by
  cases o <;> simp [textEvs, OutEvent.isText]

theorem errorEvs_usageSeg (o : Option CliUsage) :
    errorEvs ((o.map OutEvent.usageEv).toList) = [] := by
  cases o <;> simp [errorEvs, OutEvent.isErr]

theorem sessionEvs_textSeg (l : List (List Char)) :
    sessionEvs (l.map OutEvent.text) = [] := by
  induction l <;> simp [sessionEvs, OutEvent.isSession, *]

theorem usageEvs_textSeg (l : List (List Char)) :
    usageEvs (l.map OutEvent.text) = [] := by
  induction l <;> simp [usageEvs, OutEvent.isUsage, *]

theorem textEvs_textSeg (l : List (List Char)) :
    textEvs (l.map OutEvent.text) = l.map OutEvent.text := by
  induction l <;> simp [textEvs, OutEvent.isText, *]

theorem errorEvs_textSeg (l : List (List Char)) :
    errorEvs (l.map OutEvent.text) = [] := by
  induction l <;> simp [errorEvs, OutEvent.isErr, *]

theorem sessionEvs_errSeg (fields : List (String × JValue)) :
    sessionEvs (errorSigOf fields) = [] := by
  unfold errorSigOf
  split_ifs
  · cases hg : getField fields "result" with
    | none => rfl
    | some v => cases v <;> simp [sessionEvs, OutEvent.isSession]
  · rfl

theorem usageEvs_errSeg (fields : List (String × JValue)) :
    usageEvs (errorSigOf fields) = [] := by
  unfold errorSigOf
  split_ifs
  · cases hg : getField fields "result" with
    | none => rfl
    | some v => cases v <;> simp [usageEvs, OutEvent.isUsage]
  · rfl

theorem textEvs_errSeg (fields : List (String × JValue)) :
    textEvs (errorSigOf fields) = [] := by
  unfold errorSigOf
  split_ifs
  · cases hg : getField fields "result" with
    | none => rfl
    | some v => cases v <;> simp [textEvs, OutEvent.isText]
  · rfl

theorem errorEvs_errSeg (fields : List (String × JValue)) :
    errorEvs (errorSigOf fields) = errorSigOf fields := by
  unfold errorSigOf
  split_ifs
  · cases hg : getField fields "result" with
    | none => rfl
    | some v => cases v <;> simp [errorEvs, OutEvent.isErr]
  · rfl

theorem sessionEvs_toolInner (block : List (String × JValue)) :
    sessionEvs (toolSigInner block) = [] := by
  unfold toolSigInner
  split_ifs
  · cases hg : getField block "name" with
    | none => rfl
    | some v => cases v <;> simp [sessionEvs, OutEvent.isSession]
  · rfl

theorem sessionEvs_toolSeg (fields : List (String × JValue)) :
    sessionEvs (toolSigOf fields) = [] := by
  unfold toolSigOf
  split_ifs
  · cases hr : asRecord (getField fields "content_block") with
    | none => rfl
    | some block => exact sessionEvs_toolInner block
  · rfl

theorem usageEvs_toolInner (block : List (String × JValue)) :
    usageEvs (toolSigInner block) = [] := by
  unfold toolSigInner
  split_ifs
  · cases hg : getField block "name" with
    | none => rfl
    | some v => cases v <;> simp [usageEvs, OutEvent.isUsage]
  · rfl

theorem usageEvs_toolSeg (fields : List (String × JValue)) :
    usageEvs (toolSigOf fields) = [] := by
  unfold toolSigOf
  split_ifs
  · cases hr : asRecord (getField fields "content_block") with
    | none => rfl
    | some block => exact usageEvs_toolInner block
  · rfl

theorem textEvs_toolInner (block : List (String × JValue)) :
    textEvs (toolSigInner block) = [] := by
  unfold toolSigInner
  split_ifs
  · cases hg : getField block "name" with
    | none => rfl
    | some v => cases v <;> simp [textEvs, OutEvent.isText]
  · rfl

theorem textEvs_toolSeg (fields : List (String × JValue)) :
    textEvs (toolSigOf fields) = [] := by
  unfold toolSigOf
  split_ifs
  · cases hr : asRecord (getField fields "content_block") with
    | none => rfl
    | some block => exact textEvs_toolInner block
  · rfl

theorem errorEvs_toolInner (block : List (String × JValue)) :
    errorEvs (toolSigInner block) = [] := by
  unfold toolSigInner
  split_ifs
  · cases hg : getField block "name" with
    | none => rfl
    | some v => cases v <;> simp [errorEvs, OutEvent.isErr]
  · rfl

theorem errorEvs_toolSeg (fields : List (String × JValue)) :
    errorEvs (toolSigOf fields) = [] := by
  unfold toolSigOf
  split_ifs
  · cases hr : asRecord (getField fields "content_block") with
    | none => rfl
    | some block => exact errorEvs_toolInner block
  · rfl

theorem orElse_none_right (o : Option Int) : (o <|> none) = o := by
  cases o <;> rfl

theorem orElse_none_left {α : Type} (o : Option α) : (none <|> o) = o := by
  cases o <;> rfl

theorem some_orElse_any {α : Type} (a : α) (o : Option α) :
    (some a <|> o) = some a := rfl

/-! ### The claims -/

/-- C1: for every decoding function and every way of splitting a reference
stream into fragments, feeding the fragments in order and then flushing
yields the same accumulated text, session id and usage record as feeding
the whole stream as one fragment followed by flush. -/
theorem C1_split_invariance (parse : List Char → Option JValue)
    (cs : List (List Char)) :
    getCollectedText (flush parse (feedMany parse initState cs).1).1 =
        getCollectedText (flush parse (feed parse initState cs.flatten).1).1 ∧
      getSessionId (flush parse (feedMany parse initState cs).1).1 =
        getSessionId (flush parse (feed parse initState cs.flatten).1).1 ∧
      getUsage (flush parse (feedMany parse initState cs).1).1 =
        getUsage (flush parse (feed parse initState cs.flatten).1).1 := by
  rw [feedMany_flatten parse initState cs (by simp [initState])]
  exact ⟨rfl, rfl, rfl⟩

/-- C3 counterexample: feed a single space (so the pending buffer holds `" "`)
and flush; the buffer still holds the space afterwards, because `flush` does
not clear a whitespace-only buffer. -/
theorem C3_counterexample :
    (flush (fun _ => none) (feed (fun _ => none) initState [' ']).1).1.buffer
      = [' '] := by decide

/-- C3 amended: after `flush`, the buffer is empty whenever it held any
non-whitespace content (or was empty already); a whitespace-only buffer is
left unchanged.  Flushing with no pending trimmed content is a complete no-op
(so no observer calls), and a second flush directly after any flush produces
no observer calls. -/
theorem C3_flush_behaviour (parse : List Char → Option JValue)
    (st : ParserState) :
    (flush parse st).1.buffer =
        (if trimChars st.buffer = [] then st.buffer else []) ∧
      (trimChars st.buffer = [] → flush parse st = (st, [])) ∧
      (flush parse (flush parse st).1).2 = [] := by
  obtain ⟨buf, acc⟩ := st
  by_cases h : trimChars buf = []
  · have hfl : flush parse ⟨buf, acc⟩ = (⟨buf, acc⟩, []) := by
      unfold flush
      rw [if_neg (fun hc => hc h)]
    refine ⟨?_, fun _ => hfl, ?_⟩
    · rw [hfl, if_pos h]
    · simp [hfl]
  · have hfl : flush parse ⟨buf, acc⟩ =
        (⟨[], (processLine parse acc buf).1⟩, (processLine parse acc buf).2) := by
      unfold flush
      rw [if_pos h]
    have h2 : flush parse ⟨[], (processLine parse acc buf).1⟩ =
        (⟨[], (processLine parse acc buf).1⟩, []) := by
      unfold flush
      rw [if_neg (fun hc => hc rfl)]
    refine ⟨?_, fun hc => absurd hc h, ?_⟩
    · rw [hfl, if_neg h]
    · simp [hfl, h2]

/-- C3 witness: concrete instance of the amended flush behaviour at the fresh
parser state. -/
theorem C3_witness :
    flush (fun _ => none) initState = (initState, []) ∧
      (flush (fun _ => none) (flush (fun _ => none) initState).1).2 = [] := by
  have h := C3_flush_behaviour (fun _ => none) initState
  exact ⟨h.2.1 rfl, h.2.2⟩

/-- C6: a completed line that fails to decode, or decodes to a non-object,
is a no-op: no observer fires, no stored state changes, and any later line is
processed exactly as if the malformed line had never been delivered.  (The
embedding is a total function, so no error is raised.) -/
theorem C6_malformed_line_noop (parse : List Char → Option JValue)
    (st : AccState) (line : List Char)
    (h : parse (trimChars line) = none ∨
      ∃ v, parse (trimChars line) = some v ∧ v.isRecord = false) :
    processLine parse st line = (st, []) ∧
      ∀ l2, processLine parse (processLine parse st line).1 l2 =
        processLine parse st l2 := by
  have h1 : processLine parse st line = (st, []) := by
    unfold processLine
    split_ifs with ht
    · rfl
    · rcases h with h | ⟨v, hv, hrec⟩
      · rw [h]
      · rw [hv]
        cases v with
        | obj fs => simp [JValue.isRecord] at hrec
        | null => rfl
        | bool b => rfl
        | num n => rfl
        | str s => rfl
        | arr xs => rfl
  exact ⟨h1, fun l2 => by rw [h1]⟩

/-- C6 witness: a line that does not decode leaves the fresh state untouched
and the next line behaves identically. -/
theorem C6_witness :
    processLine (fun _ => none) ({} : AccState) ['x'] = (({} : AccState), []) ∧
      processLine (fun _ => none)
          (processLine (fun _ => none) ({} : AccState) ['x']).1 ['y'] =
        processLine (fun _ => none) ({} : AccState) ['y'] :=
  ⟨(C6_malformed_line_noop (fun _ => none) {} ['x'] (Or.inl rfl)).1,
    (C6_malformed_line_noop (fun _ => none) {} ['x'] (Or.inl rfl)).2 ['y']⟩

/-- Modelled on the spec's words for usage conversion: try a counter's
alternate key spellings in priority order, keeping the first that is present
and is a number strictly greater than zero; an alternate that is absent, not
a number, zero or negative is skipped and the next one tried. -/
def resolveCounter (raw : List (String × JValue)) : List String → Option Int
  | [] => none
  | k :: ks =>
    match getField raw k with
    | some (.num n) => if 0 < n then some n else resolveCounter raw ks
    | _ => resolveCounter raw ks

theorem resolveCounter_nil (raw : List (String × JValue)) :
    resolveCounter raw [] = none := rfl

theorem resolveCounter_cons (raw : List (String × JValue)) (k : String)
    (ks : List String) :
    resolveCounter raw (k :: ks) = (pick raw k <|> resolveCounter raw ks) := by
  simp only [resolveCounter]
  cases hg : getField raw k with
  | none => simp [pick, hg, orElse_none_left]
  | some v =>
    cases v with
    | num n =>
      by_cases h : 0 < n <;>
        simp [pick, hg, h, orElse_none_left, some_orElse_any]
    | null => simp [pick, hg, orElse_none_left]
    | bool b => simp [pick, hg, orElse_none_left]
    | str s => simp [pick, hg, orElse_none_left]
    | arr xs => simp [pick, hg, orElse_none_left]
    | obj fs => simp [pick, hg, orElse_none_left]

/-- C7: usage conversion resolves each of the five counters through its fixed
alternate-spelling list independently (first present, numeric, strictly
positive alternate wins; others skipped), yields no record exactly when all
five resolve to absent, and otherwise carries exactly the resolved subset. -/
theorem C7_toUsage_resolution (raw : List (String × JValue)) :
    toUsage raw =
      (if resolveCounter raw ["input_tokens", "inputTokens"] = none ∧
          resolveCounter raw ["output_tokens", "outputTokens"] = none ∧
          resolveCounter raw
            ["cache_read_input_tokens", "cached_input_tokens", "cacheRead"] = none ∧
          resolveCounter raw ["cache_write_input_tokens", "cacheWrite"] = none ∧
          resolveCounter raw ["total_tokens", "total"] = none then
        none
      else
        some
          ⟨resolveCounter raw ["input_tokens", "inputTokens"],
            resolveCounter raw ["output_tokens", "outputTokens"],
            resolveCounter raw
              ["cache_read_input_tokens", "cached_input_tokens", "cacheRead"],
            resolveCounter raw ["cache_write_input_tokens", "cacheWrite"],
            resolveCounter raw ["total_tokens", "total"]⟩) := by
  simp only [resolveCounter_cons, resolveCounter_nil, orElse_none_right]
  rfl

/-- C2 counterexample: a meaningful usage record (`input = 5`) is already
stored; a result line whose usage object converts to no meaningful record
(`input_tokens = 0`) still invokes the usage observer — with the old record —
contradicting the claim that the observer is not invoked in that situation.
The stored record itself is unchanged. -/
theorem C2_counterexample :
    (processLine
          (fun _ =>
            some (JValue.obj [("type", JValue.str "result".toList),
              ("usage", JValue.obj [("input_tokens", JValue.num 0)])]))
          { usage := some { input := some 5 } } ['u']).2 =
        [OutEvent.usageEv { input := some 5 }] ∧
      (processLine
          (fun _ =>
            some (JValue.obj [("type", JValue.str "result".toList),
              ("usage", JValue.obj [("input_tokens", JValue.num 0)])]))
          { usage := some { input := some 5 } } ['u']).1.usage =
        some { input := some 5 } := by decide

/-- C2 amended: a result line whose usage object converts to no meaningful
record leaves the stored usage record unchanged; the usage observer stays
silent when no record was stored, but when a meaningful record was already
stored the observer is re-invoked with that old record. -/
theorem C2_meaningless_usage (parse : List Char → Option JValue)
    (st : AccState) (line : List Char) (fields raw : List (String × JValue))
    (hline : trimChars line ≠ [])
    (hp : parse (trimChars line) = some (JValue.obj fields))
    (htype : typeField fields = "result".toList)
    (hraw : asRecord (getField fields "usage") = some raw)
    (hnone : toUsage raw = none) :
    (processLine parse st line).1.usage = st.usage ∧
      usageEvs (processLine parse st line).2 =
        (match st.usage with
        | some u => [OutEvent.usageEv u]
        | none => []) := by
  rw [processLine_model]
  unfold lineModel
  rw [if_neg hline, hp]
  have hur : usageRawOf fields = some raw := by
    unfold usageRawOf
    rw [if_pos htype, hraw]
  unfold stepModel
  simp only [hur, hnone, orElse_none_left, usageEvs_append, usageEvs_sessSeg,
    usageEvs_usageSeg, usageEvs_textSeg, usageEvs_errSeg, usageEvs_toolSeg,
    List.append_nil, List.nil_append]
  cases st.usage <;> simp

/-- C2 witness: concrete instance of the amended statement — old record
`input = 5`, incoming usage object `input_tokens = 0`. -/
theorem C2_witness :
    (processLine
          (fun _ =>
            some (JValue.obj [("type", JValue.str "result".toList),
              ("usage", JValue.obj [("input_tokens", JValue.num 0)])]))
          { usage := some { output := some 3 } } ['u']).1.usage =
        ({ usage := some ({ output := some 3 } : CliUsage) } : AccState).usage ∧
      usageEvs
          (processLine
            (fun _ =>
              some (JValue.obj [("type", JValue.str "result".toList),
                ("usage", JValue.obj [("input_tokens", JValue.num 0)])]))
            { usage := some { output := some 3 } } ['u']).2 =
        [OutEvent.usageEv { output := some 3 }] := by
  exact C2_meaningless_usage _ _ ['u']
    [("type", JValue.str "result".toList),
      ("usage", JValue.obj [("input_tokens", JValue.num 0)])]
    [("input_tokens", JValue.num 0)]
    (by decide) rfl (by decide) rfl (by decide)

/-- C4 counterexample: a result line with a truthy (but not strictly `true`)
error flag `is_error: 1` and string result `"oops"` does not invoke the error
observer, contradicting the claim's "truthy error flag" condition. -/
theorem C4_counterexample :
    OutEvent.errorEv "oops".toList ∉
        (processLine
          (fun _ =>
            some (JValue.obj [("type", JValue.str "result".toList),
              ("is_error", JValue.num 1),
              ("result", JValue.str "oops".toList)]))
          ({} : AccState) ['e']).2 ∧
      JValue.jsTruthy (JValue.num 1) = true := by decide

/-- The error notifications a single line can produce, read off the line
itself: a `result` event whose error flag is strictly the boolean `true` and
whose result field is a string. -/
def errorSignalLine (parse : List Char → Option JValue) (line : List Char) :
    List OutEvent :=
  if trimChars line = [] then []
  else
    match parse (trimChars line) with
    | some (.obj fields) => errorSigOf fields
    | _ => []

/-- C4 amended: the error observer is invoked exactly on result lines whose
`is_error` is strictly the boolean `true` and whose result field is a string,
with that string — and in no other circumstance; the characterisation does not
depend on the parser state, so it is independent of session-id, usage and
fallback-text handling on the same line. -/
theorem C4_error_observer (parse : List Char → Option JValue) (st : AccState)
    (line : List Char) :
    errorEvs (processLine parse st line).2 = errorSignalLine parse line := by
  rw [processLine_model]
  unfold lineModel errorSignalLine
  split_ifs with h
  · rfl
  · cases hp : parse (trimChars line) with
    | none => rfl
    | some v =>
      cases v with
      | obj fields =>
        unfold stepModel
        simp only [errorEvs_append, errorEvs_sessSeg, errorEvs_textSeg,
          errorEvs_errSeg, errorEvs_toolSeg, List.append_nil, List.nil_append]
        cases usageRawOf fields <;> simp [errorEvs_usageSeg, errorEvs, OutEvent.isErr]
      | null => rfl
      | bool b => rfl
      | num n => rfl
      | str s => rfl
      | arr xs => rfl

/-! ### Trimming facts -/

theorem dropWhile_head?_not {α : Type} (p : α → Bool) (l : List α) (a : α)
    (h : (l.dropWhile p).head? = some a) : p a = false := by
  induction l with
  | nil => simp [List.dropWhile] at h
  | cons c cs ih =>
    rw [List.dropWhile_cons] at h
    by_cases hc : p c
    · rw [if_pos hc] at h
      exact ih h
    · rw [if_neg hc] at h
      have hca : c = a := by simpa using h
      subst hca
      simpa using hc

theorem dropWhile_id_of_head {α : Type} (p : α → Bool) (l : List α)
    (h : ∀ a, l.head? = some a → p a = false) : l.dropWhile p = l := by
  cases l with
  | nil => rfl
  | cons c cs =>
    rw [List.dropWhile_cons, h c rfl]
    simp

theorem dropWhile_getLast?_of_ne_nil {α : Type} (p : α → Bool) (l : List α)
    (h : l.dropWhile p ≠ []) : (l.dropWhile p).getLast? = l.getLast? := by
  induction l with
  | nil => exact absurd rfl h
  | cons c cs ih =>
    rw [List.dropWhile_cons] at h ⊢
    by_cases hc : p c
    · rw [if_pos hc] at h ⊢
      rw [ih h]
      have hcs : cs ≠ [] := by
        intro hcc
        rw [hcc] at h
        exact h rfl
      cases cs with
      | nil => exact absurd rfl hcs
      | cons d ds => rw [List.getLast?_cons_cons]
    · rw [if_neg hc] at h ⊢

theorem trimChars_getLast?_not_ws (t : List Char) (a : Char)
    (h : (trimChars t).getLast? = some a) : isJsWhitespace a = false := by
  unfold trimChars at h
  rw [List.getLast?_reverse] at h
  exact dropWhile_head?_not _ _ _ h

theorem trimChars_head?_not_ws (t : List Char) (a : Char)
    (h : (trimChars t).head? = some a) : isJsWhitespace a = false := by
  unfold trimChars at h
  rw [List.head?_reverse] at h
  have hne :
      List.dropWhile isJsWhitespace (List.dropWhile isJsWhitespace t).reverse ≠ [] := by
    intro hB
    rw [hB] at h
    simp at h
  rw [dropWhile_getLast?_of_ne_nil _ _ hne, List.getLast?_reverse] at h
  exact dropWhile_head?_not _ _ _ h

theorem trimChars_idem (t : List Char) : trimChars (trimChars t) = trimChars t := by
  have h1 : List.dropWhile isJsWhitespace (trimChars t) = trimChars t :=
    dropWhile_id_of_head _ _ (fun a ha => trimChars_head?_not_ws t a ha)
  have h2 : List.dropWhile isJsWhitespace (trimChars t).reverse = (trimChars t).reverse := by
    apply dropWhile_id_of_head
    intro a ha
    rw [List.head?_reverse] at ha
    exact trimChars_getLast?_not_ws t a ha
  show (((trimChars t).dropWhile isJsWhitespace).reverse.dropWhile isJsWhitespace).reverse
    = trimChars t
  rw [h1, h2, List.reverse_reverse]

/-! ### Session-id characterisation -/

/-- The session id a single raw line can establish: it must trim to a
non-blank line, decode to an object of type `system` or `result`, and carry a
non-empty trimmed string `session_id`. -/
def sessionCandidate (parse : List Char → Option JValue) (line : List Char) :
    Option (List Char) :=
  if trimChars line = [] then none
  else
    match parse (trimChars line) with
    | some (.obj fields) => sessionFieldOf fields
    | _ => none

theorem stepModel_session (st : AccState) (fields : List (String × JValue)) :
    (stepModel st fields).1.sessionId =
        (match (if jsFalsyOptStr st.sessionId then sessionFieldOf fields
          else none) with
        | some s => some s
        | none => st.sessionId) ∧
      sessionEvs (stepModel st fields).2 =
        ((if jsFalsyOptStr st.sessionId then sessionFieldOf fields
          else none).map OutEvent.sessionIdEv).toList := by
  constructor
  · rfl
  · unfold stepModel
    simp only [sessionEvs_append, sessionEvs_sessSeg, sessionEvs_textSeg,
      sessionEvs_errSeg, sessionEvs_toolSeg, List.append_nil, List.nil_append]
    cases usageRawOf fields <;> simp [sessionEvs_usageSeg, sessionEvs, OutEvent.isSession]

theorem processLine_session (parse : List Char → Option JValue) (st : AccState)
    (line : List Char) :
    (processLine parse st line).1.sessionId =
        (match (if jsFalsyOptStr st.sessionId then sessionCandidate parse line
          else none) with
        | some s => some s
        | none => st.sessionId) ∧
      sessionEvs (processLine parse st line).2 =
        ((if jsFalsyOptStr st.sessionId then sessionCandidate parse line
          else none).map OutEvent.sessionIdEv).toList := by
  rw [processLine_model]
  unfold lineModel sessionCandidate
  by_cases h : trimChars line = []
  · rw [if_pos h, if_pos h]
    constructor <;> simp [sessionEvs]
  · rw [if_neg h, if_neg h]
    cases hp : parse (trimChars line) with
    | none => constructor <;> simp [sessionEvs]
    | some v =>
      cases v with
      | obj fields => exact stepModel_session st fields
      | null => constructor <;> simp [sessionEvs]
      | bool b => constructor <;> simp [sessionEvs]
      | num n => constructor <;> simp [sessionEvs]
      | str s => constructor <;> simp [sessionEvs]
      | arr xs => constructor <;> simp [sessionEvs]

theorem sessionIdField_shape (fields : List (String × JValue)) (s : List Char)
    (h : sessionIdField fields = some s) : trimChars s = s ∧ s ≠ [] := by
  unfold sessionIdField at h
  cases hg : getField fields "session_id" with
  | none => rw [hg] at h; exact Option.noConfusion h
  | some v =>
    rw [hg] at h
    cases v with
    | str t =>
      have h' : (if trimChars t ≠ [] then some (trimChars t) else none) = some s := h
      split_ifs at h' with hne
      have hts : trimChars t = s := Option.some.inj h'
      subst hts
      exact ⟨trimChars_idem t, hne⟩
    | null => exact Option.noConfusion h
    | bool b => exact Option.noConfusion h
    | num n => exact Option.noConfusion h
    | arr xs => exact Option.noConfusion h
    | obj fs => exact Option.noConfusion h

theorem sessionFieldOf_shape (fields : List (String × JValue)) (s : List Char)
    (h : sessionFieldOf fields = some s) : trimChars s = s ∧ s ≠ [] := by
  unfold sessionFieldOf at h
  split_ifs at h
  exact sessionIdField_shape fields s h

theorem sessionCandidate_shape (parse : List Char → Option JValue)
    (line : List Char) (s : List Char)
    (h : sessionCandidate parse line = some s) : trimChars s = s ∧ s ≠ [] := by
  unfold sessionCandidate at h
  split_ifs at h
  cases hp : parse (trimChars line) with
    | none => rw [hp] at h; exact Option.noConfusion h
    | some v =>
      rw [hp] at h
      cases v with
      | obj fields => exact sessionFieldOf_shape fields s h
      | null => exact Option.noConfusion h
      | bool b => exact Option.noConfusion h
      | num n => exact Option.noConfusion h
      | str t => exact Option.noConfusion h
      | arr xs => exact Option.noConfusion h

/-- The first line of a run that can establish a session id, and the value it
establishes. -/
def firstCandidate (parse : List Char → Option JValue) :
    List (List Char) → Option (List Char)
  | [] => none
  | l :: ls =>
    match sessionCandidate parse l with
    | some s => some s
    | none => firstCandidate parse ls

theorem processLines_session_set (parse : List Char → Option JValue)
    (lines : List (List Char)) :
    ∀ (st : AccState) (s : List Char), st.sessionId = some s → s ≠ [] →
      (processLines parse st lines).1.sessionId = some s ∧
        sessionEvs (processLines parse st lines).2 = [] := by
  induction lines with
  | nil => intro st s hs _; exact ⟨hs, rfl⟩
  | cons l ls ih =>
    intro st s hs hne
    have hfalsy : jsFalsyOptStr st.sessionId = false := by
      rw [hs]
      cases s with
      | nil => exact absurd rfl hne
      | cons c cs => rfl
    obtain ⟨h1, h2⟩ := processLine_session parse st l
    rw [hfalsy] at h1 h2
    rw [if_neg (show ¬(false = true) by decide)] at h1 h2
    have h1' : (processLine parse st l).1.sessionId = st.sessionId := by rw [h1]
    have h2' : sessionEvs (processLine parse st l).2 = [] := by rw [h2]; rfl
    obtain ⟨ih1, ih2⟩ := ih (processLine parse st l).1 s (by rw [h1', hs]) hne
    refine ⟨ih1, ?_⟩
    simp only [processLines, sessionEvs_append, h2', ih2, List.nil_append]

theorem processLines_session_none (parse : List Char → Option JValue)
    (lines : List (List Char)) :
    ∀ st : AccState, st.sessionId = none →
      (processLines parse st lines).1.sessionId = firstCandidate parse lines ∧
        sessionEvs (processLines parse st lines).2 =
          ((firstCandidate parse lines).map OutEvent.sessionIdEv).toList := by
  induction lines with
  | nil => intro st h; exact ⟨h, rfl⟩
  | cons l ls ih =>
    intro st h
    have hfalsy : jsFalsyOptStr st.sessionId = true := by rw [h]; rfl
    obtain ⟨h1, h2⟩ := processLine_session parse st l
    rw [hfalsy] at h1 h2
    rw [if_pos (show true = true from rfl)] at h1 h2
    simp only [processLines, firstCandidate]
    cases hc : sessionCandidate parse l with
    | none =>
      rw [hc] at h1 h2
      have h1' : (processLine parse st l).1.sessionId = st.sessionId := by rw [h1]
      have h2' : sessionEvs (processLine parse st l).2 = [] := by rw [h2]; rfl
      obtain ⟨ih1, ih2⟩ := ih (processLine parse st l).1 (by rw [h1', h])
      exact ⟨ih1, by simp only [sessionEvs_append, h2', ih2, List.nil_append]⟩
    | some s =>
      rw [hc] at h1 h2
      have h1' : (processLine parse st l).1.sessionId = some s := by rw [h1]
      have h2' : sessionEvs (processLine parse st l).2 = [OutEvent.sessionIdEv s] := by
        rw [h2]; rfl
      have hne : s ≠ [] := (sessionCandidate_shape parse l s hc).2
      obtain ⟨ih1, ih2⟩ :=
        processLines_session_set parse ls (processLine parse st l).1 s h1' hne
      exact ⟨ih1, by simp only [sessionEvs_append, h2', ih2, List.append_nil]; rfl⟩

/-- C5: the session id is write-once.  Over any run from the fresh state, the
final stored session id is the one established by the first `system` or
`result` event carrying a non-empty trimmed session-identifier field
(`firstCandidate`), the observer fires exactly once — with that value — when
such an event exists, and never fires otherwise; every later
session-identifier field is ignored.  (In particular, an init event setting
"from-init" followed by a result carrying "from-result" ends with
"from-init" and one observer call.) -/
theorem C5_session_write_once (parse : List Char → Option JValue)
    (lines : List (List Char)) :
    (processLines parse ({} : AccState) lines).1.sessionId =
        firstCandidate parse lines ∧
      sessionEvs (processLines parse ({} : AccState) lines).2 =
        ((firstCandidate parse lines).map OutEvent.sessionIdEv).toList :=
  processLines_session_none parse lines {} rfl

/-! ### The session id is always stored trimmed (C10) -/

/-- A whole parser run: feed the fragments in order, then flush; the trace is
the concatenation of all notifications. -/
def runParser (parse : List Char → Option JValue) (cs : List (List Char)) :
    ParserState × List OutEvent :=
  let r := feedMany parse initState cs
  let f := flush parse r.1
  (f.1, r.2 ++ f.2)

/-- Invariant: the stored session id, when present, is a trimmed non-empty
string. -/
def sessionInv (st : AccState) : Prop :=
  ∀ s, st.sessionId = some s → trimChars s = s ∧ s ≠ []

theorem processLine_sessionInv (parse : List Char → Option JValue)
    (st : AccState) (line : List Char) (h : sessionInv st) :
    sessionInv (processLine parse st line).1 ∧
      ∀ s, OutEvent.sessionIdEv s ∈ (processLine parse st line).2 →
        trimChars s = s ∧ s ≠ [] := by
  obtain ⟨h1, h2⟩ := processLine_session parse st line
  constructor
  · intro s hs
    rw [h1] at hs
    by_cases hf : jsFalsyOptStr st.sessionId
    · rw [if_pos hf] at hs
      cases hc : sessionCandidate parse line with
      | none =>
        rw [hc] at hs
        exact h s hs
      | some c =>
        rw [hc] at hs
        have hcs : c = s := Option.some.inj hs
        subst hcs
        exact sessionCandidate_shape parse line c hc
    · rw [if_neg hf] at hs
      exact h s hs
  · intro s hs
    have hs' : OutEvent.sessionIdEv s ∈ sessionEvs (processLine parse st line).2 :=
      List.mem_filter.mpr ⟨hs, rfl⟩
    rw [h2] at hs'
    by_cases hf : jsFalsyOptStr st.sessionId
    · rw [if_pos hf] at hs'
      cases hc : sessionCandidate parse line with
      | none => rw [hc] at hs'; simp at hs'
      | some c =>
        rw [hc] at hs'
        have hcs : s = c := by simpa using hs'
        subst hcs
        exact sessionCandidate_shape parse line s hc
    · rw [if_neg hf] at hs'
      simp at hs'

theorem processLines_sessionInv (parse : List Char → Option JValue)
    (lines : List (List Char)) :
    ∀ st : AccState, sessionInv st →
      sessionInv (processLines parse st lines).1 ∧
        ∀ s, OutEvent.sessionIdEv s ∈ (processLines parse st lines).2 →
          trimChars s = s ∧ s ≠ [] := by
  induction lines with
  | nil =>
    intro st h
    exact ⟨h, by simp [processLines]⟩
  | cons l ls ih =>
    intro st h
    obtain ⟨hInv1, hEv1⟩ := processLine_sessionInv parse st l h
    obtain ⟨hInv2, hEv2⟩ := ih _ hInv1
    refine ⟨hInv2, fun s hs => ?_⟩
    simp only [processLines] at hs
    rw [List.mem_append] at hs
    rcases hs with hs | hs
    · exact hEv1 s hs
    · exact hEv2 s hs

theorem feed_sessionInv (parse : List Char → Option JValue) (st : ParserState)
    (chunk : List Char) (h : sessionInv st.acc) :
    sessionInv (feed parse st chunk).1.acc ∧
      ∀ s, OutEvent.sessionIdEv s ∈ (feed parse st chunk).2 →
        trimChars s = s ∧ s ≠ [] :=
  processLines_sessionInv parse (splitOnNl (st.buffer ++ chunk)).dropLast st.acc h

theorem feedMany_sessionInv (parse : List Char → Option JValue)
    (cs : List (List Char)) :
    ∀ st : ParserState, sessionInv st.acc →
      sessionInv (feedMany parse st cs).1.acc ∧
        ∀ s, OutEvent.sessionIdEv s ∈ (feedMany parse st cs).2 →
          trimChars s = s ∧ s ≠ [] := by
  induction cs with
  | nil =>
    intro st h
    exact ⟨h, by simp [feedMany]⟩
  | cons c cs ih =>
    intro st h
    obtain ⟨h1, e1⟩ := feed_sessionInv parse st c h
    obtain ⟨h2, e2⟩ := ih _ h1
    refine ⟨h2, fun s hs => ?_⟩
    simp only [feedMany] at hs
    rw [List.mem_append] at hs
    rcases hs with hs | hs
    · exact e1 s hs
    · exact e2 s hs

theorem flush_sessionInv (parse : List Char → Option JValue)
    (st : ParserState) (h : sessionInv st.acc) :
    sessionInv (flush parse st).1.acc ∧
      ∀ s, OutEvent.sessionIdEv s ∈ (flush parse st).2 →
        trimChars s = s ∧ s ≠ [] := by
  unfold flush
  split_ifs with hc
  · exact processLine_sessionInv parse st.acc st.buffer h
  · exact ⟨h, by simp⟩

/-- C10: whenever the session id is established over a whole run — the final
`getSessionId` returns a value, or a session-id observer event occurred — the
stored string is the trimmed session-identifier field: trimming it again
changes nothing (no leading or trailing whitespace) and it is non-empty. -/
theorem C10_session_id_trimmed (parse : List Char → Option JValue)
    (cs : List (List Char)) (s : List Char)
    (h : getSessionId (runParser parse cs).1 = some s ∨
      OutEvent.sessionIdEv s ∈ (runParser parse cs).2) :
    trimChars s = s ∧ s ≠ [] := by
  have hinit : sessionInv initState.acc := fun s hs => Option.noConfusion hs
  obtain ⟨hM, eM⟩ := feedMany_sessionInv parse cs initState hinit
  obtain ⟨hF, eF⟩ := flush_sessionInv parse (feedMany parse initState cs).1 hM
  rcases h with h | h
  · exact hF s h
  · unfold runParser at h
    rw [List.mem_append] at h
    rcases h with h | h
    · exact eM s h
    · exact eF s h

/-- C10 witness: a system event carrying `session_id: " ab "` (note the
spaces), delivered without a trailing newline so that `flush` classifies it,
stores the trimmed id `"ab"`. -/
theorem C10_witness :
    trimChars "ab".toList = "ab".toList ∧ "ab".toList ≠ [] :=
  C10_session_id_trimmed
    (fun _ =>
      some (JValue.obj [("type", JValue.str "system".toList),
        ("session_id", JValue.str " ab ".toList)]))
    [['I']] "ab".toList (Or.inl (by decide))

/-! ### Text-path characterisation (deltas and the result fallback) -/

/-- The recognised text-delta payload of a raw line, if any. -/
def deltaPayloadLine (parse : List Char → Option JValue) (line : List Char) :
    Option (List Char) :=
  if trimChars line = [] then none
  else
    match parse (trimChars line) with
    | some (.obj fields) => deltaPayloadOf fields
    | _ => none

/-- The string `result` field of a raw line that decodes to a `result`
event, if any. -/
def resultTextLine (parse : List Char → Option JValue) (line : List Char) :
    Option (List Char) :=
  if trimChars line = [] then none
  else
    match parse (trimChars line) with
    | some (.obj fields) => resultTextOf fields
    | _ => none

/-- The fragments a raw line appends to `collectedTextParts`, given the parts
collected so far. -/
def textPushLine (parse : List Char → Option JValue)
    (parts : List (List Char)) (line : List Char) : List (List Char) :=
  match deltaPayloadLine parse line with
  | some t => [t]
  | none =>
    match resultTextLine parse line with
    | some r => if parts = [] ∧ trimChars r ≠ [] then [r] else []
    | none => []

/-- Whether a raw line is classified as a `result` event. -/
def isResultLine (parse : List Char → Option JValue) (line : List Char) : Bool :=
  if trimChars line = [] then false
  else
    match parse (trimChars line) with
    | some (.obj fields) => decide (typeField fields = "result".toList)
    | _ => false

/-- Whether a raw result line carries a non-empty trimmed string result
field (the fallback-text condition that does not depend on state). -/
def fallbackCarrier (parse : List Char → Option JValue) (line : List Char) :
    Bool :=
  match resultTextLine parse line with
  | some r => !(trimChars r).isEmpty
  | none => false

theorem stepModel_text (st : AccState) (fields : List (String × JValue)) :
    (stepModel st fields).1.collectedTextParts =
        st.collectedTextParts ++ textPushF st.collectedTextParts fields ∧
      textEvs (stepModel st fields).2 =
        (textPushF st.collectedTextParts fields).map OutEvent.text := by
  constructor
  · rfl
  · unfold stepModel
    simp only [textEvs_append, textEvs_sessSeg, textEvs_textSeg, textEvs_errSeg,
      textEvs_toolSeg, List.append_nil, List.nil_append]
    cases usageRawOf fields <;> simp [textEvs_usageSeg, textEvs, OutEvent.isText]

theorem processLine_text (parse : List Char → Option JValue) (st : AccState)
    (line : List Char) :
    (processLine parse st line).1.collectedTextParts =
        st.collectedTextParts ++ textPushLine parse st.collectedTextParts line ∧
      textEvs (processLine parse st line).2 =
        (textPushLine parse st.collectedTextParts line).map OutEvent.text := by
  rw [processLine_model]
  unfold lineModel textPushLine deltaPayloadLine resultTextLine
  by_cases h : trimChars line = []
  · rw [if_pos h, if_pos h, if_pos h]
    constructor <;> simp [textEvs]
  · rw [if_neg h, if_neg h, if_neg h]
    cases hp : parse (trimChars line) with
    | none => constructor <;> simp [textEvs]
    | some v =>
      cases v with
      | obj fields => exact stepModel_text st fields
      | null => constructor <;> simp [textEvs]
      | bool b => constructor <;> simp [textEvs]
      | num n => constructor <;> simp [textEvs]
      | str s => constructor <;> simp [textEvs]
      | arr xs => constructor <;> simp [textEvs]

theorem processLine_parts_len (parse : List Char → Option JValue)
    (st : AccState) (line : List Char) :
    (processLine parse st line).1.collectedTextParts.length =
      st.collectedTextParts.length +
        (textEvs (processLine parse st line).2).length := by
  obtain ⟨h1, h2⟩ := processLine_text parse st line
  rw [h1, h2, List.length_append, List.length_map]

theorem processLines_parts_len (parse : List Char → Option JValue)
    (lines : List (List Char)) :
    ∀ st : AccState,
      (processLines parse st lines).1.collectedTextParts.length =
        st.collectedTextParts.length +
          (textEvs (processLines parse st lines).2).length := by
  induction lines with
  | nil => intro st; simp [processLines, textEvs]
  | cons l ls ih =>
    intro st
    simp only [processLines, textEvs_append, List.length_append]
    rw [ih, processLine_parts_len]
    omega

theorem resultTextLine_of_not_result (parse : List Char → Option JValue)
    (line : List Char) (h : isResultLine parse line = false) :
    resultTextLine parse line = none := by
  unfold isResultLine at h
  unfold resultTextLine
  split_ifs at h ⊢ with ht
  · rfl
  · cases hp : parse (trimChars line) with
    | none => rfl
    | some v =>
      rw [hp] at h
      cases v with
      | obj fields =>
        replace h : ¬(typeField fields = "result".toList) := of_decide_eq_false h
        show resultTextOf fields = none
        unfold resultTextOf
        rw [if_neg h]
      | null => rfl
      | bool b => rfl
      | num n => rfl
      | str s => rfl
      | arr xs => rfl

theorem deltaPayloadLine_of_result (parse : List Char → Option JValue)
    (line : List Char) (h : isResultLine parse line = true) :
    deltaPayloadLine parse line = none := by
  unfold isResultLine at h
  unfold deltaPayloadLine
  split_ifs at h ⊢ with ht
  · cases hp : parse (trimChars line) with
    | none => rfl
    | some v =>
      rw [hp] at h
      cases v with
      | obj fields =>
        replace h : typeField fields = "result".toList := of_decide_eq_true h
        show deltaPayloadOf fields = none
        unfold deltaPayloadOf
        rw [if_neg]
        intro hc
        rw [h] at hc
        exact absurd hc (by decide)
      | null => rfl
      | bool b => rfl
      | num n => rfl
      | str s => rfl
      | arr xs => rfl

theorem textPushLine_nonresult (parse : List Char → Option JValue)
    (parts : List (List Char)) (line : List Char)
    (h : isResultLine parse line = false) :
    textPushLine parse parts line =
      (match deltaPayloadLine parse line with
      | some t => [t]
      | none => []) := by
  unfold textPushLine
  rw [resultTextLine_of_not_result parse line h]

theorem textPushLine_result_char (parse : List Char → Option JValue)
    (parts : List (List Char)) (line : List Char)
    (h : isResultLine parse line = true) :
    textPushLine parse parts line =
      (match resultTextLine parse line with
      | some r => if parts = [] ∧ trimChars r ≠ [] then [r] else []
      | none => []) := by
  unfold textPushLine
  rw [deltaPayloadLine_of_result parse line h]

theorem textEvs_len_line_nonresult (parse : List Char → Option JValue)
    (st : AccState) (line : List Char) (h : isResultLine parse line = false) :
    (textEvs (processLine parse st line).2).length =
      (if (deltaPayloadLine parse line).isSome then 1 else 0) := by
  obtain ⟨-, h2⟩ := processLine_text parse st line
  rw [h2, textPushLine_nonresult parse st.collectedTextParts line h]
  cases deltaPayloadLine parse line <;> simp

theorem textEvs_len_nonresult (parse : List Char → Option JValue)
    (ms : List (List Char)) :
    ∀ st : AccState, (∀ l ∈ ms, isResultLine parse l = false) →
      (textEvs (processLines parse st ms).2).length =
        ms.countP (fun l => (deltaPayloadLine parse l).isSome) := by
  induction ms with
  | nil => intro st _; rfl
  | cons l ls ih =>
    intro st h
    simp only [processLines, textEvs_append, List.length_append]
    rw [textEvs_len_line_nonresult parse st l (h l (by simp)),
      ih _ (fun x hx => h x (by simp [hx])), List.countP_cons]
    cases hdp : (deltaPayloadLine parse l).isSome <;> simp [hdp] <;> omega


/-- C9: a text-delta event whose string payload is the empty string is still
recognised — it appends the empty string to the collected fragments and
notifies the text observer with it, leaves the concatenated text unchanged,
and (because the fragment sequence is now non-empty and never shrinks)
permanently disables the terminal-result fallback text path. -/
theorem C9_empty_text_delta (parse : List Char → Option JValue)
    (st : AccState) (line : List Char) (fields delta : List (String × JValue))
    (hline : trimChars line ≠ [])
    (hp : parse (trimChars line) = some (JValue.obj fields))
    (htype : typeField fields = "content_block_delta".toList)
    (hdelta : getField fields "delta" = some (JValue.obj delta))
    (hdt : strEq (getField delta "type") "text_delta".toList = true)
    (htext : getField delta "text" = some (JValue.str [])) :
    processLine parse st line =
        ({ st with collectedTextParts := st.collectedTextParts ++ [[]] },
          [OutEvent.text []]) ∧
      (st.collectedTextParts ++ [[]]).flatten = st.collectedTextParts.flatten ∧
      (∀ parse2 (st2 : AccState) l2, st2.collectedTextParts ≠ [] →
        (processLine parse2 st2 l2).1.collectedTextParts ≠ []) ∧
      (∀ parse2 (st2 : AccState) l2, st2.collectedTextParts ≠ [] →
        isResultLine parse2 l2 = true →
        textEvs (processLine parse2 st2 l2).2 = []) := by
  refine ⟨?_, by simp, fun parse2 st2 l2 hne => ?_, fun parse2 st2 l2 hne hres => ?_⟩
  · rw [processLine_model]
    unfold lineModel
    rw [if_neg hline, hp]
    have hrec : asRecord (getField fields "delta") = some delta := by
      rw [hdelta]; rfl
    have hdp : deltaPayloadOf fields = some [] := by
      unfold deltaPayloadOf
      rw [if_pos htype, hrec]
      show deltaTextOf delta = some []
      unfold deltaTextOf
      rw [if_pos hdt, htext]
    have hsf : sessionFieldOf fields = none := by
      unfold sessionFieldOf
      rw [if_neg]
      rintro (hc | hc) <;> (rw [htype] at hc; exact absurd hc (by decide))
    have hur : usageRawOf fields = none := by
      unfold usageRawOf
      rw [if_neg]
      intro hc; rw [htype] at hc; exact absurd hc (by decide)
    have hrt : resultTextOf fields = none := by
      unfold resultTextOf
      rw [if_neg]
      intro hc; rw [htype] at hc; exact absurd hc (by decide)
    have hes : errorSigOf fields = [] := by
      unfold errorSigOf
      rw [if_neg]
      rintro ⟨hc, -⟩; rw [htype] at hc; exact absurd hc (by decide)
    have hts : toolSigOf fields = [] := by
      unfold toolSigOf
      rw [if_neg]
      intro hc; rw [htype] at hc; exact absurd hc (by decide)
    unfold stepModel textPushF
    obtain ⟨parts, sid, usg⟩ := st
    simp [hdp, hsf, hur, hrt, hes, hts]
  · obtain ⟨h1, -⟩ := processLine_text parse2 st2 l2
    rw [h1]
    intro hc
    exact hne (List.append_eq_nil.mp hc).1
  · obtain ⟨-, h2⟩ := processLine_text parse2 st2 l2
    rw [h2, textPushLine_result_char parse2 st2.collectedTextParts l2 hres]
    cases hrt : resultTextLine parse2 l2 with
    | none => rfl
    | some r =>
      have hcond : ¬(st2.collectedTextParts = [] ∧ trimChars r ≠ []) :=
        fun hc => hne hc.1
      simp [hcond]

/-- C9 witness: feeding a concrete empty text delta to the fresh accumulator
pushes the empty fragment and fires the text observer once; afterwards a
concrete result line carrying `result: "done"` produces no text event. -/
theorem C9_witness :
    processLine
        (fun _ =>
          some (JValue.obj [("type", JValue.str "content_block_delta".toList),
            ("delta", JValue.obj [("type", JValue.str "text_delta".toList),
              ("text", JValue.str [])])]))
        ({} : AccState) ['D'] =
      (({ collectedTextParts := [[]] } : AccState), [OutEvent.text []]) ∧
    textEvs
        (processLine
          (fun _ =>
            some (JValue.obj [("type", JValue.str "result".toList),
              ("result", JValue.str "done".toList)]))
          ({ collectedTextParts := [[]] } : AccState) ['R']).2 = [] := by
  have h := C9_empty_text_delta
    (fun _ =>
      some (JValue.obj [("type", JValue.str "content_block_delta".toList),
        ("delta", JValue.obj [("type", JValue.str "text_delta".toList),
          ("text", JValue.str [])])]))
    ({} : AccState) ['D']
    [("type", JValue.str "content_block_delta".toList),
      ("delta", JValue.obj [("type", JValue.str "text_delta".toList),
        ("text", JValue.str [])])]
    [("type", JValue.str "text_delta".toList), ("text", JValue.str [])]
    (by decide) rfl (by decide) rfl (by decide) rfl
  exact ⟨h.1, h.2.2.2
    (fun _ =>
      some (JValue.obj [("type", JValue.str "result".toList),
        ("result", JValue.str "done".toList)]))
    ({ collectedTextParts := [[]] } : AccState) ['R'] (by decide) (by decide)⟩


/-- C8: the fallback-text path of a result line appends the result field and
notifies the text observer if and only if no fragment has been collected
before that point and the result field is a string with non-empty trim
(first conjunct, for any state); consequently, over a run consisting of
non-result lines followed by one terminal result line, the text observer's
call count equals the number of recognised deltas, plus exactly one if and
only if no deltas occurred and the terminal line carries such a result field
(second conjunct). -/
theorem C8_fallback_text (parse : List Char → Option JValue)
    (ms : List (List Char)) (r : List Char)
    (hms : ∀ l ∈ ms, isResultLine parse l = false)
    (hr : isResultLine parse r = true) :
    (∀ st : AccState, textEvs (processLine parse st r).2 =
        (match resultTextLine parse r with
        | some t =>
          if st.collectedTextParts = [] ∧ trimChars t ≠ [] then [OutEvent.text t]
          else []
        | none => [])) ∧
      (textEvs (processLines parse ({} : AccState) (ms ++ [r])).2).length =
        ms.countP (fun l => (deltaPayloadLine parse l).isSome) +
          (if ms.countP (fun l => (deltaPayloadLine parse l).isSome) = 0 ∧
              fallbackCarrier parse r = true then 1 else 0) := by
  constructor
  · intro st
    obtain ⟨-, h2⟩ := processLine_text parse st r
    rw [h2, textPushLine_result_char parse st.collectedTextParts r hr]
    cases hrt : resultTextLine parse r with
    | none => rfl
    | some t =>
      by_cases hc : st.collectedTextParts = [] ∧ trimChars t ≠ []
      · simp [hc]
      · simp [hc]
  · have hN := textEvs_len_nonresult parse ms ({} : AccState) hms
    have hparts :
        (processLines parse ({} : AccState) ms).1.collectedTextParts.length =
          ms.countP (fun l => (deltaPayloadLine parse l).isSome) := by
      rw [processLines_parts_len, hN]
      simp
    rw [processLines_append]
    simp only [textEvs_append, List.length_append]
    rw [hN]
    have hsingle :
        processLines parse (processLines parse ({} : AccState) ms).1 [r] =
          ((processLine parse (processLines parse ({} : AccState) ms).1 r).1,
            (processLine parse (processLines parse ({} : AccState) ms).1 r).2 ++ []) :=
      rfl
    rw [hsingle]
    obtain ⟨-, h2⟩ :=
      processLine_text parse (processLines parse ({} : AccState) ms).1 r
    rw [List.append_nil, h2, textPushLine_result_char parse _ r hr]
    cases hrt : resultTextLine parse r with
    | none =>
      have hcar : fallbackCarrier parse r = false := by
        unfold fallbackCarrier
        rw [hrt]
      simp [hcar]
    | some t =>
      have hcar : fallbackCarrier parse r = !(trimChars t).isEmpty := by
        unfold fallbackCarrier
        rw [hrt]
      by_cases hN0 : ms.countP (fun l => (deltaPayloadLine parse l).isSome) = 0
      · have hpe :
            (processLines parse ({} : AccState) ms).1.collectedTextParts = [] := by
          have h' := hparts
          rw [hN0] at h'
          exact List.length_eq_zero.mp h'
        by_cases htr : trimChars t = []
        · have hcond :
              ¬((processLines parse ({} : AccState) ms).1.collectedTextParts = [] ∧
                trimChars t ≠ []) := fun hc => hc.2 htr
          simp [hcond, hcar, htr, hN0]
        · simp [hpe, htr, hcar, hN0]
      · have hpne :
            (processLines parse ({} : AccState) ms).1.collectedTextParts ≠ [] := by
          intro hc
          apply hN0
          rw [← hparts, hc]
          rfl
        have hcond :
            ¬((processLines parse ({} : AccState) ms).1.collectedTextParts = [] ∧
              trimChars t ≠ []) := fun hc => hpne hc.1
        simp [hcond, hN0]

/-- C8 witness: a run with no delta lines and one result line carrying
`result: "hi"` fires the text observer exactly once via the fallback path. -/
theorem C8_witness :
    textEvs
        (processLine
          (fun _ =>
            some (JValue.obj [("type", JValue.str "result".toList),
              ("result", JValue.str "hi".toList)]))
          ({} : AccState) ['R']).2 =
      (match resultTextLine
          (fun _ =>
            some (JValue.obj [("type", JValue.str "result".toList),
              ("result", JValue.str "hi".toList)])) ['R'] with
      | some t =>
        if ({} : AccState).collectedTextParts = [] ∧ trimChars t ≠ [] then
          [OutEvent.text t]
        else []
      | none => []) ∧
    (textEvs
        (processLines
          (fun _ =>
            some (JValue.obj [("type", JValue.str "result".toList),
              ("result", JValue.str "hi".toList)]))
          ({} : AccState) ([] ++ [['R']])).2).length =
      ([] : List (List Char)).countP
          (fun l => (deltaPayloadLine
            (fun _ =>
              some (JValue.obj [("type", JValue.str "result".toList),
                ("result", JValue.str "hi".toList)])) l).isSome) +
        (if ([] : List (List Char)).countP
              (fun l => (deltaPayloadLine
                (fun _ =>
                  some (JValue.obj [("type", JValue.str "result".toList),
                    ("result", JValue.str "hi".toList)])) l).isSome) = 0 ∧
            fallbackCarrier
              (fun _ =>
                some (JValue.obj [("type", JValue.str "result".toList),
                  ("result", JValue.str "hi".toList)])) ['R'] = true then 1
        else 0) := by
  have h := C8_fallback_text
    (fun _ =>
      some (JValue.obj [("type", JValue.str "result".toList),
        ("result", JValue.str "hi".toList)]))
    [] ['R'] (by simp) (by decide)
  exact ⟨h.1 {}, h.2⟩

end StreamJson